import Mathlib

/-!
Window-watcher: foreground sampling, version-resource parsing and the store

A shallow embedding of `window/window.go` and `sqlite/sqlite.go`.

* Go functions become total Lean functions.  A Go function that returns
  `(value, error)` returns the pair, the error being `Option String`
  (`none` is `nil`).  A run-time panic (index or slice bounds out of range) is
  the separate outcome `Go.crash`.
* Calls into the operating system are not code of the repository: their results
  are fields of the records `ForegroundOS`, `ProcessOS` and `VersionOS`.
* The database is the record `Store`: the rows of table `process` and of table
  `data`, each list in rowid order, with the constraints of the two
  `CREATE TABLE` statements.
* Go `int` and `uintptr` are 64 bits wide (windows/amd64), `uint32` is 32 bits
  wide; arithmetic wraps.
-/

namespace WindowWatcher

/-! ## Go values -/

/-- A byte of the version-resource block. -/
abbrev Byte := Fin 256

/-- Outcome of a Go call: it returns, or the run time panics. -/
inductive Go (α : Type) where
  | ret (a : α)
  | crash (msg : String)
deriving DecidableEq

/-- Reduction of an integer to the range of a 64-bit two's complement `int`. -/
def wrapInt (x : Int) : Int := (x + 2 ^ 63) % 2 ^ 64 - 2 ^ 63

/-- Reduction of a number to the range of `uint32`. -/
def wrapU32 (x : Nat) : Nat := x % 2 ^ 32

/-- The slice expression `xs[lo:hi]`; `none` is the bounds panic.  The bounds
are checked against the length of `xs`; Go checks them against the capacity,
which is not smaller. -/
def sliceAt (xs : List Byte) (lo hi : Int) : Option (List Byte) :=
  if 0 ≤ lo ∧ lo ≤ hi ∧ hi ≤ (xs.length : Int) then
    some ((xs.drop lo.toNat).take (hi.toNat - lo.toNat))
  else none

/-- The index expression `xs[i]`; `none` is the bounds panic. -/
def indexAt (xs : List Byte) (i : Nat) : Option Byte := xs.get? i

/-- One digit of the table `0123456789abcdef` used by the verb `%x`. -/
def hexDigit (n : Nat) : Char := "0123456789abcdef".toList.getD n '0'

/-- Two lowercase hexadecimal digits for one byte. -/
def hexByte (b : Byte) : List Char := [hexDigit (b.val / 16), hexDigit (b.val % 16)]

/-- The call `fmt.Sprintf("%x", t)` for a byte slice `t`. -/
def sprintfHex (t : List Byte) : String := String.mk (t.flatMap hexByte)

/-! ## Operating-system results -/

/-- Results of the calls made by `getCurrentProcess`. -/
structure ForegroundOS where
  /-- Result of `windows.GetForegroundWindow()` -/
  GetForegroundWindow : Nat
  /-- process id stored by `windows.GetWindowThreadProcessId` -/
  GetWindowThreadProcessId : Nat
  /-- Result of `windows.OpenProcess`: a handle or an error -/
  OpenProcess : Except String Nat
  /-- Result of `windows.QueryFullProcessImageName`: the buffer as a string, or an error -/
  QueryFullProcessImageName : Except String String

/-- Results of the calls made by `getFilePathAndNameFromProcessID`. -/
structure ProcessOS where
  OpenProcess : Except String Nat
  EnumProcessModulesEx : Except String Nat
  /-- Result of `windows.GetModuleBaseName`: the buffer as a string, or an error -/
  GetModuleBaseName : Except String String
  QueryFullProcessImageName : Except String String

/-- Results of the calls made by `GetDescriptionFromPath` and the two
`verQueryValue` helpers. -/
structure VersionOS where
  /-- Result of `windows.GetFileVersionInfoSize` -/
  GetFileVersionInfoSize : Except String Nat
  /-- Result of `windows.GetFileVersionInfo`: the bytes written to the buffer, or an error -/
  GetFileVersionInfo : Except String (List Byte)
  /-- address of `block[0]` -/
  blockStart : Nat
  /-- Result of `windows.VerQueryValue` on a block and a sub-block name: the reported
  address and length, or an error -/
  VerQueryValue : List Byte → String → Except String (Nat × Nat)
  /-- The function `windows.UTF16ToString` -/
  UTF16ToString : List Nat → String

/-! ## window.go: version resource -/

/-- Body of the loop `for i := range trans` of `verQueryValueTranslations` at
index `i`: the entry `t := data[i*4:(i+1)*4]`, its two in-place swaps, its key. -/
def translationStep (data : List Byte) (i : Nat) : Option (List Byte × String) :=
  match sliceAt data ((i * 4 : Nat) : Int) (((i + 1) * 4 : Nat) : Int) with
  | none => none
  | some t =>
    match indexAt t 0, indexAt t 1, indexAt t 2, indexAt t 3 with
    | some b0, some b1, some b2, some b3 =>
      let t1 := [b1, b0, b3, b2]
      some (data.take (i * 4) ++ t1 ++ data.drop ((i + 1) * 4), sprintfHex t1)
    | _, _, _, _ => none

/-- The loop `for i := range trans`, from index `i`, for `n` more iterations. -/
def translationLoop : List Byte → Nat → Nat → List String → Option (List Byte × List String)
  | data, _, 0, keys => some (data, keys)
  | data, i, n + 1, keys =>
    match translationStep data i with
    | none => none
    | some (data1, key) => translationLoop data1 (i + 1) n (keys ++ [key])

/-- Go `verQueryValueTranslations`.  The first component of the result is the
block after the call (the swaps are done in place). -/
def verQueryValueTranslations (v : VersionOS) (block : List Byte) :
    Go (List Byte × List String × Option String) :=
  match block with
  | [] => .crash "index out of range [0] with length 0"
  | _ :: _ =>
    match v.VerQueryValue block "\\VarFileInfo\\Translation" with
    | .error e => .ret (block, [], some e)
    | .ok (offset, length) =>
      let length := wrapU32 length
      let start := wrapInt (wrapInt offset - wrapInt v.blockStart)
      let end1 := wrapInt (start + wrapInt length)
      if start < 0 ∨ start ≥ block.length ∨ end1 < start ∨ end1 > block.length then
        .ret (block, [],
          some "verQueryValueTranslations: Invalid start or end position for item string")
      else
        match sliceAt block start end1 with
        | none => .crash "slice bounds out of range"
        | some data =>
          if data.length % 4 ≠ 0 then
            .ret (block, [], some "verQueryValueTranslations: incorrect number of bytes")
          else
            match translationLoop data 0 (data.length / 4) [] with
            | none => .crash "slice bounds out of range"
            | some (data1, keys) =>
              .ret (block.take start.toNat ++ data1 ++ block.drop end1.toNat, keys, none)

/-- The loop `for i := range u16` of `verQueryValueString`, from index `i`, for
`n` more iterations: `u16[i] = uint16(data[i*2+1])<<8 | uint16(data[i*2+0])`. -/
def u16Loop (data : List Byte) : Nat → Nat → List Nat → Option (List Nat)
  | _, 0, u16 => some u16
  | i, n + 1, u16 =>
    match indexAt data (i * 2 + 1), indexAt data (i * 2 + 0) with
    | some hi, some lo => u16Loop data (i + 1) n (u16 ++ [(hi.val <<< 8 ||| lo.val) % 2 ^ 16])
    | _, _ => none

/-- Go `verQueryValueString`. -/
def verQueryValueString (v : VersionOS) (block : List Byte) (translation item : String) :
    Go (String × Option String) :=
  match block with
  | [] => .crash "index out of range [0] with length 0"
  | _ :: _ =>
    let id := "\\StringFileInfo\\" ++ translation ++ "\\" ++ item
    match v.VerQueryValue block id with
    | .error e => .ret ("", some e)
    | .ok (offset, utf16Length) =>
      let utf16Length := wrapU32 utf16Length
      let start := wrapInt (wrapInt offset - wrapInt v.blockStart)
      let end1 := wrapInt (start + wrapInt (wrapU32 (2 * utf16Length)))
      if start < 0 ∨ start ≥ block.length ∨ end1 < start ∨ end1 > block.length then
        .ret ("", some "verQueryValueString: Invalid start or end position for item string")
      else
        match sliceAt block start end1 with
        | none => .crash "slice bounds out of range"
        | some data =>
          match u16Loop data 0 utf16Length [] with
          | none => .crash "index out of range"
          | some u16 => .ret (v.UTF16ToString u16, none)

/-- Go `GetDescriptionFromPath`, on the version calls for its path. -/
def GetDescriptionFromPath (v : VersionOS) : Go (String × Option String) :=
  match v.GetFileVersionInfoSize with
  | .error e => .ret ("", some ("error in GetFileVersionInfoSize: " ++ e))
  | .ok versionInfoSize =>
    let versionInfoSize := wrapU32 versionInfoSize
    if versionInfoSize = 0 then .crash "index out of range [0] with length 0"
    else
      match v.GetFileVersionInfo with
      | .error e => .ret ("", some ("error in GetFileVersionInfo: " ++ e))
      | .ok written =>
        let versionInfo : List Byte :=
          (List.range versionInfoSize).map (fun i => written.getD i 0)
        match verQueryValueTranslations v versionInfo with
        | .crash m => .crash m
        | .ret (_, _, some e) => .ret ("", some ("error in verQueryValueTranslations: " ++ e))
        | .ret (versionInfo1, languages, none) =>
          match languages with
          | [] => .crash "index out of range [0] with length 0"
          | language :: _ =>
            match verQueryValueString v versionInfo1 language "FileDescription" with
            | .crash m => .crash m
            | .ret (_, some e) => .ret ("", some ("error in verQueryValueString: " ++ e))
            | .ret (desc, none) => .ret (desc, none)


/-! ## window.go: process information -/

/-- Go `getFilePathAndNameFromProcessID`: `(filePath, fileName, err)`. -/
def getFilePathAndNameFromProcessID (p : ProcessOS) : String × String × Option String :=
  match p.OpenProcess with
  | .error e => ("", "", some ("error in OpenProcess: " ++ e))
  | .ok _ =>
    match p.EnumProcessModulesEx with
    | .error e => ("", "", some ("error in EnumProcessModulesEx: " ++ e))
    | .ok _ =>
      match p.GetModuleBaseName with
      | .error e => ("", "", some ("error in GetModuleBaseName: " ++ e))
      | .ok fileName =>
        if fileName = "" then ("", "", some "empty filename")
        else
          match p.QueryFullProcessImageName with
          | .error e => ("", "", some ("error in QueryFullProcessImageName: " ++ e))
          | .ok filePath => (filePath, fileName, none)

/-- Go `getProcessInfo`: `(fileName, desc, filePathName, err)`.  The version
calls depend on the path that was resolved. -/
def getProcessInfo (p : ProcessOS) (version : String → VersionOS) :
    Go (String × String × String × Option String) :=
  match getFilePathAndNameFromProcessID p with
  | (_, _, some e) => .ret ("", "", "", some e)
  | (filePathName, fileName, none) =>
    match GetDescriptionFromPath (version filePathName) with
    | .crash m => .crash m
    | .ret (_, some e) => .ret ("", "", "", some e)
    | .ret (desc, none) => .ret (fileName, desc, filePathName, none)

/-- Go `getCurrentProcess`: `(path, processID, err)`. -/
def getCurrentProcess (f : ForegroundOS) : String × Nat × Option String :=
  if f.GetForegroundWindow = 0 then ("", 0, none)
  else
    match f.OpenProcess with
    | .error e => ("", 0, some ("error in OpenProcess: " ++ e))
    | .ok _ =>
      match f.QueryFullProcessImageName with
      | .error e => ("", 0, some ("error in QueryFullProcessImageName: " ++ e))
      | .ok filePath => (filePath, f.GetWindowThreadProcessId, none)

/-! ## sqlite.go: the store -/

/-- A row of table `process (id INTEGER PRIMARY KEY, name, path, desc, track)`. -/
structure ProcessRow where
  id : Nat
  name : String
  path : String
  desc : String
  track : Nat
deriving DecidableEq

/-- A row of table `data (id INTEGER NOT NULL, time TIMESTAMP NOT NULL PRIMARY KEY)`. -/
structure DataRow where
  id : Nat
  time : Nat
deriving DecidableEq

/-- The database: both tables, each in rowid order. -/
structure Store where
  process : List ProcessRow
  data : List DataRow
deriving DecidableEq

/-- Errors of the database driver that the embedding distinguishes. -/
inductive SqlError where
  /-- The error `sql.ErrNoRows` -/
  | ErrNoRows
  /-- a constraint of the schema rejected the statement -/
  | constraintFailed (msg : String)
deriving DecidableEq

/-- The database after the two `CREATE TABLE IF NOT EXISTS` of `init` on a new file. -/
def emptyStore : Store := ⟨[], []⟩

/-- The rowid given to a row inserted without an id into a table whose primary
key is `id INTEGER PRIMARY KEY`: one more than the largest id, 1 when empty.
Ids are natural numbers here; what the database does once the largest 64-bit
rowid is in use is outside the embedding. -/
def nextRowid (rows : List ProcessRow) : Nat := (rows.map (·.id)).foldr max 0 + 1

/-- Statement `procInfoStmt`:
`INSERT INTO process(name, path, desc, track) VALUES(?, ?, ?, ?)`. -/
def procInfoStmt (s : Store) (a1 a2 a3 : String) (a4 : Nat) : Store :=
  { s with process := s.process ++ [⟨nextRowid s.process, a1, a2, a3, a4⟩] }

/-- Statement `addExclusion`:
`INSERT INTO process (name, path, desc, track) VALUES (?, ?, ?, 0)`. -/
def addExclusion (s : Store) (a1 a2 a3 : String) : Store :=
  { s with process := s.process ++ [⟨nextRowid s.process, a1, a2, a3, 0⟩] }

/-- Statement `updateExclusion`: `UPDATE process SET track = ? WHERE path = ?`. -/
def updateExclusion (s : Store) (a1 : Nat) (a2 : String) : Store :=
  { s with process := s.process.map (fun r => if r.path = a2 then { r with track := a1 } else r) }

/-- Statement `getTrackStatusByPath`: `SELECT track FROM process WHERE path = ?`,
first row. -/
def getTrackStatusByPath (s : Store) (a1 : String) : Option Nat :=
  (s.process.find? (fun r => r.path = a1)).map (·.track)

/-- Statement `searchInProcInfo`: `SELECT id, track FROM process WHERE path = ?`,
first row. -/
def searchInProcInfo (s : Store) (a1 : String) : Option (Nat × Nat) :=
  (s.process.find? (fun r => r.path = a1)).map (fun r => (r.id, r.track))

/-- Statement `procDataStmt`: `INSERT INTO data VALUES(?, ?)`; column `time` is
the primary key of `data`. -/
def procDataStmt (s : Store) (a1 a2 : Nat) : Except SqlError Store :=
  if s.data.any (fun d => d.time = a2) then
    .error (.constraintFailed "UNIQUE constraint failed: data.time")
  else .ok { s with data := s.data ++ [⟨a1, a2⟩] }

/-- Statement `deleteProcessByPath`: delete the rows of `data` whose id is the id
of a row of `process` with the given path. -/
def deleteProcessByPath (s : Store) (a1 : String) : Store :=
  { s with
    data := s.data.filter (fun d => !(s.process.any (fun b => d.id = b.id ∧ b.path = a1))) }

/-- Go `GetExclusions`: `SELECT path FROM process WHERE track = 0`. -/
def GetExclusions (s : Store) : List String :=
  (s.process.filter (fun r => r.track = 0)).map (·.path)

/-- Go `UpdateExclusion`: `updateExclusion.Exec(1, path)`. -/
def UpdateExclusion (s : Store) (_track : Nat) (path : String) : Except SqlError Store :=
  .ok (updateExclusion s 1 path)

/-- Go `GetTrackStatusByPath`: `(track, err)`. -/
def GetTrackStatusByPath (s : Store) (path : String) : Nat × Option SqlError :=
  match getTrackStatusByPath s path with
  | some track => (track, none)
  | none => (0, some .ErrNoRows)

/-- Go `AddExclusion`: `addExclusion.Exec(processName, desc, path)`. -/
def AddExclusion (s : Store) (processName desc path : String) : Except SqlError Store :=
  .ok (addExclusion s processName desc path)

/-- Go `DeleteProcessByPath`. -/
def DeleteProcessByPath (s : Store) (path : String) : Except SqlError Store :=
  .ok (deleteProcessByPath s path)

/-- Go `DeleteDB`: `DELETE FROM data`, `DELETE FROM process`, `VACUUM`. -/
def DeleteDB (_s : Store) : Store := ⟨[], []⟩

/-- Go `SearchInProcInfo`: the row scanned into `id` and `track`, or `sql.ErrNoRows`. -/
def SearchInProcInfo (s : Store) (path : String) : Except SqlError (Nat × Nat) :=
  match searchInProcInfo s path with
  | some r => .ok r
  | none => .error .ErrNoRows

/-- Go `InsertProcessData`: `procInfoStmt.Exec(filename, path, desc, true)`; the
driver stores `true` as 1. -/
def InsertProcessData (s : Store) (filename path desc : String) (_track : Bool) :
    Except SqlError Store :=
  .ok (procInfoStmt s filename path desc 1)

/-- Go `InsertProcessTime`: `procDataStmt.Exec(id, time.Now())`. -/
def InsertProcessTime (s : Store) (id now : Nat) : Except SqlError Store :=
  procDataStmt s id now

/-! ## window.go: the loop -/

/-- Everything one iteration of `Watch` reads from outside the store. -/
structure OS where
  foreground : ForegroundOS
  /-- the calls of `getFilePathAndNameFromProcessID`, by process id -/
  process : Nat → ProcessOS
  /-- the version calls, by path -/
  version : String → VersionOS
  /-- Value of `time.Now()` -/
  now : Nat

/-- How one iteration of the loop of `Watch` ends. -/
inductive Tick where
  /-- The statement `continue`, or the end of the body: the loop goes on with this store -/
  | next (s : Store)
  /-- A call of `log.Fatal`: the program exits -/
  | fatal (s : Store)
  /-- a run-time panic -/
  | crash (s : Store)
deriving DecidableEq

/-- The end of the body of the loop of `Watch`, from `if track == 0`. -/
def watchSample (s : Store) (id track now : Nat) : Tick :=
  if track = 0 then .next s
  else
    match InsertProcessTime s id now with
    | .error _ => .fatal s
    | .ok s1 => .next s1

/-- One iteration of the loop of Go `Watch` (after `time.Sleep`). -/
def watchTick (os : OS) (s : Store) : Tick :=
  match getCurrentProcess os.foreground with
  | (path, processID, err) =>
    if path = "" then .next s
    else if err ≠ none then .fatal s
    else
      -- `var id, track int`
      match SearchInProcInfo s path with
      | .ok (id, track) => watchSample s id track os.now
      | .error e =>
        if e = .ErrNoRows then
          match getProcessInfo (os.process processID) os.version with
          | .crash _ => .crash s
          | .ret (filename, desc, _, err) =>
            if filename = "" then .next s
            else if err ≠ none then .fatal s
            else
              match InsertProcessData s filename path desc true with
              | .error _ => .fatal s
              | .ok s1 => watchSample s1 0 0 os.now
        else .fatal s

/-- The loop of Go `Watch` over the iterations whose surroundings are listed;
it stops at the first iteration that does not go on. -/
def Watch (s : Store) : List OS → Tick
  | [] => .next s
  | os :: rest =>
    match watchTick os s with
    | .next s1 => Watch s1 rest
    | t => t

/-! ## Sequences of store operations -/

/-- A call of one of the functions of `sqlite.go` that write to the store. -/
inductive StoreOp where
  | insertProcessData (filename path desc : String) (track : Bool)
  | addExclusion (processName desc path : String)
  | updateExclusion (track : Nat) (path : String)
  | insertProcessTime (id now : Nat)
  | deleteProcessByPath (path : String)
  | deleteDB

/-- The store after the call; a call that returns an error leaves it unchanged. -/
def StoreOp.run (s : Store) : StoreOp → Store
  | .insertProcessData filename path desc track =>
    match InsertProcessData s filename path desc track with
    | .ok s1 => s1
    | .error _ => s
  | .addExclusion processName desc path =>
    match AddExclusion s processName desc path with
    | .ok s1 => s1
    | .error _ => s
  | .updateExclusion track path =>
    match UpdateExclusion s track path with
    | .ok s1 => s1
    | .error _ => s
  | .insertProcessTime id now =>
    match InsertProcessTime s id now with
    | .ok s1 => s1
    | .error _ => s
  | .deleteProcessByPath path =>
    match DeleteProcessByPath s path with
    | .ok s1 => s1
    | .error _ => s
  | .deleteDB => DeleteDB s

/-- The store after a sequence of calls. -/
def runOps (s : Store) (ops : List StoreOp) : Store := ops.foldl StoreOp.run s

/-- The check on the arguments of a call that inserts a row: no stored row has
the path for which the row is inserted.  For `AddExclusion` neither the path
nor the description may be the path of a stored row, so that the check does not
depend on the order in which `addExclusion.Exec` binds the two.  The other calls
insert no row into `process`. -/
def StoreOp.guarded (s : Store) : StoreOp → Bool
  | .insertProcessData _ path _ _ => s.process.all (fun r => decide (r.path ≠ path))
  | .addExclusion _ desc path =>
    s.process.all (fun r => decide (r.path ≠ path ∧ r.path ≠ desc))
  | _ => true

/-- The store with which an iteration of `Watch` ends. -/
def Tick.store : Tick → Store
  | .next s => s
  | .fatal s => s
  | .crash s => s

/-- What happens to the store: an iteration of the loop of `Watch`, or a call of
one of the writing functions of `sqlite.go`. -/
inductive Event where
  | tick (os : OS)
  | call (op : StoreOp)

/-- The store after the event.  The database is a file: after `log.Fatal` or a
panic the store is the one the iteration ended with. -/
def Event.run (s : Store) : Event → Store
  | .tick os => (watchTick os s).store
  | .call op => op.run s

/-- An iteration of `Watch` needs no check (it makes its own lookup); a call
needs `StoreOp.guarded`. -/
def Event.guarded (s : Store) : Event → Bool
  | .tick _ => true
  | .call op => op.guarded s

/-- The store after a sequence of events. -/
def runEvents (s : Store) (evs : List Event) : Store := evs.foldl Event.run s

/-- Every call of the sequence satisfies `StoreOp.guarded` at the store it is
made on. -/
def eventsGuarded (s : Store) : List Event → Bool
  | [] => true
  | ev :: rest => ev.guarded s && eventsGuarded (ev.run s) rest

/-! ## Translation keys, as the description of the parser states them -/

/-- The key for a translation entry with bytes `b0 b1 b2 b3`: the lowercase
hexadecimal digits of `b1 b0 b3 b2`. -/
def translationKey (b0 b1 b2 b3 : Byte) : String :=
  String.mk (hexByte b1 ++ hexByte b0 ++ hexByte b3 ++ hexByte b2)

/-- The keys of a translation table: one for each of its `len/4` entries, in
table order, entry `i` being the bytes `4i .. 4i+3`. -/
def translationKeys (data : List Byte) : List String :=
  (List.range (data.length / 4)).map (fun i =>
    translationKey (data.getD (4 * i) 0) (data.getD (4 * i + 1) 0)
      (data.getD (4 * i + 2) 0) (data.getD (4 * i + 3) 0))

/-- The keys of a translation table, entry by entry from the front. -/
def keysOf : List Byte → List String
  | b0 :: b1 :: b2 :: b3 :: rest => translationKey b0 b1 b2 b3 :: keysOf rest
  | _ => []

/-- A translation table after the in-place swaps of every entry. -/
def swapEntries : List Byte → List Byte
  | b0 :: b1 :: b2 :: b3 :: rest => b1 :: b0 :: b3 :: b2 :: swapEntries rest
  | rest => rest

/-- The value of a lowercase hexadecimal digit. -/
def hexValue (c : Char) : Nat := "0123456789abcdef".toList.indexOf c

/-! ## Concrete surroundings used by the evaluations below -/

/-- A version resource with one translation `09 04 b0 04` at offset 0 and the
description `Fo` (UTF-16) at offset 4. -/
def fooVersion : VersionOS where
  GetFileVersionInfoSize := .ok 8
  GetFileVersionInfo := .ok [0x09, 0x04, 0xb0, 0x04, 0x46, 0, 0x6f, 0]
  blockStart := 4096
  VerQueryValue := fun _ key =>
    if key = "\\VarFileInfo\\Translation" then .ok (4096, 4)
    else if key = "\\StringFileInfo\\040904b0\\FileDescription" then .ok (4100, 2)
    else .error "resource not found"
  UTF16ToString := fun u => String.mk (u.map Char.ofNat)

/-- The foreground window belongs to process 77, image `C:\apps\foo.exe`. -/
def fooForeground : ForegroundOS where
  GetForegroundWindow := 1
  GetWindowThreadProcessId := 77
  OpenProcess := .ok 5
  QueryFullProcessImageName := .ok "C:\\apps\\foo.exe"

/-- The module calls for the process of `fooForeground`. -/
def fooProcess : ProcessOS where
  OpenProcess := .ok 6
  EnumProcessModulesEx := .ok 1
  GetModuleBaseName := .ok "foo.exe"
  QueryFullProcessImageName := .ok "C:\\apps\\foo.exe"

/-- Surroundings of an iteration at time 100 with `foo.exe` in the foreground. -/
def fooOS : OS where
  foreground := fooForeground
  process := fun _ => fooProcess
  version := fun _ => fooVersion
  now := 100

/-- A store that knows `C:\apps\foo.exe`, tracked, with one sample at time 100. -/
def fooStore : Store :=
  ⟨[⟨1, "foo.exe", "C:\\apps\\foo.exe", "Fo", 1⟩], [⟨1, 100⟩]⟩

/-- The version resource of `fooVersion`, but the translation table is reported
with a length of 3 bytes. -/
def oddVersion : VersionOS :=
  { fooVersion with
    VerQueryValue := fun _ key =>
      if key = "\\VarFileInfo\\Translation" then .ok (4096, 3)
      else .error "resource not found" }

/-- Surroundings of an iteration with `foo.exe` in the foreground and the
version resource `oddVersion`. -/
def oddOS : OS := { fooOS with version := fun _ => oddVersion }

/-- Surroundings of an iteration with no foreground window. -/
def noWindowOS : OS :=
  { fooOS with foreground := { fooForeground with GetForegroundWindow := 0 } }

/-- Surroundings of an iteration whose foreground process cannot be opened. -/
def deniedOS : OS :=
  { fooOS with foreground := { fooForeground with OpenProcess := .error "Access is denied." } }

/-- The version resource of `fooVersion`, but the translation table is reported
with a length of 0 bytes. -/
def noTranslationVersion : VersionOS :=
  { fooVersion with
    VerQueryValue := fun _ key =>
      if key = "\\VarFileInfo\\Translation" then .ok (4096, 0)
      else .error "resource not found" }

/-- The version resource of `fooVersion`, but the description is reported with a
length of 2147483648 (2^31) UTF-16 units. -/
def hugeLengthVersion : VersionOS :=
  { fooVersion with
    VerQueryValue := fun _ key =>
      if key = "\\VarFileInfo\\Translation" then .ok (4096, 4)
      else .ok (4100, 2147483648) }

/-! ## Lemmas on the foreground and process calls -/

theorem getCurrentProcess_err_of_path (f : ForegroundOS)
    (h : (getCurrentProcess f).1 ≠ "") : (getCurrentProcess f).2.2 = none := by
  unfold getCurrentProcess at h ⊢
  split
  · rfl
  · split
    · simp_all
    · split
      · simp_all
      · rfl

theorem getCurrentProcess_path_of_err (f : ForegroundOS)
    (h : (getCurrentProcess f).2.2 ≠ none) : (getCurrentProcess f).1 = "" := by
  by_contra hne
  exact h (getCurrentProcess_err_of_path f hne)

theorem getFilePathAndNameFromProcessID_name (p : ProcessOS) (filePath fileName : String)
    (h : getFilePathAndNameFromProcessID p = (filePath, fileName, none)) : fileName ≠ "" := by
  unfold getFilePathAndNameFromProcessID at h
  split at h
  · simp at h
  · split at h
    · simp at h
    · split at h
      · simp at h
      · split at h
        · simp at h
        · split at h
          · simp at h
          · simp at h
            rcases h with ⟨_, h2⟩
            rw [← h2]; assumption

theorem getProcessInfo_name (p : ProcessOS) (version : String → VersionOS)
    (name desc filePath : String)
    (h : getProcessInfo p version = .ret (name, desc, filePath, none)) : name ≠ "" := by
  unfold getProcessInfo at h
  split at h
  · simp at h
  · rename_i fp fn hf
    split at h
    · simp at h
    · simp at h
    · simp at h
      rcases h with ⟨h1, _, _⟩
      rw [← h1]
      exact getFilePathAndNameFromProcessID_name p fp fn hf

theorem SearchInProcInfo_none (s : Store) (p : String)
    (h : ∀ r ∈ s.process, r.path ≠ p) : SearchInProcInfo s p = .error .ErrNoRows := by
  have hf : s.process.find? (fun r => decide (r.path = p)) = none := by
    rw [List.find?_eq_none]
    intro r hr
    simpa using h r hr
  simp [SearchInProcInfo, searchInProcInfo, hf]

theorem nextRowid_gt (rows : List ProcessRow) : ∀ r ∈ rows, r.id < nextRowid rows := by
  induction rows with
  | nil => intro r hr; cases hr
  | cons a rest ih =>
    intro r hr
    simp only [nextRowid, List.map_cons, List.foldr_cons] at ih ⊢
    rcases List.mem_cons.mp hr with rfl | h
    · omega
    · have := ih r h
      omega

theorem watchTick_of_path (os : OS) (s : Store)
    (hp : (getCurrentProcess os.foreground).1 ≠ "") :
    watchTick os s =
      match SearchInProcInfo s (getCurrentProcess os.foreground).1 with
      | .ok (id, track) => watchSample s id track os.now
      | .error e =>
        if e = .ErrNoRows then
          match getProcessInfo (os.process (getCurrentProcess os.foreground).2.1) os.version with
          | .crash _ => .crash s
          | .ret (filename, desc, _, err) =>
            if filename = "" then .next s
            else if err ≠ none then .fatal s
            else
              match InsertProcessData s filename (getCurrentProcess os.foreground).1 desc true with
              | .error _ => .fatal s
              | .ok s1 => watchSample s1 0 0 os.now
        else .fatal s := by
  have he := getCurrentProcess_err_of_path os.foreground hp
  unfold watchTick
  rcases hg : getCurrentProcess os.foreground with ⟨path, pid, err⟩
  rw [hg] at hp he
  simp only at hp he
  subst he
  simp [hp]

/-! ## Theorems -/

/-- C1, as amended: when the lookup finds the observed non-empty path with id `i`
and track flag `t`, an iteration of `Watch` leaves the store unchanged if `t = 0`;
if `t ≠ 0` and no stored sample has the time of the iteration, it appends exactly
the sample `(i, now)` and leaves table `process` unchanged. -/
theorem watchTick_known (os : OS) (s : Store) (p : String) (i t : Nat)
    (hobs : (getCurrentProcess os.foreground).1 = p) (hp : p ≠ "")
    (hfind : SearchInProcInfo s p = .ok (i, t)) :
    (t = 0 → watchTick os s = .next s) ∧
    (t ≠ 0 → (∀ d ∈ s.data, d.time ≠ os.now) →
      watchTick os s = .next ⟨s.process, s.data ++ [⟨i, os.now⟩]⟩) := by
  subst hobs
  rw [watchTick_of_path os s hp, hfind]
  constructor
  · intro ht
    simp [watchSample, ht]
  · intro ht hfresh
    have hany : s.data.any (fun d => decide (d.time = os.now)) = false := by
      rw [List.any_eq_false]
      intro d hd
      simpa using hfresh d hd
    simp [watchSample, ht, InsertProcessTime, procDataStmt, hany]

/-- Witness of `watchTick_known`: `foo.exe` known and tracked, observed at time
101; and `foo.exe` known and excluded. -/
theorem watchTick_known_witness :
    watchTick { fooOS with now := 101 } fooStore =
      .next ⟨fooStore.process, fooStore.data ++ [⟨1, 101⟩]⟩ ∧
    watchTick fooOS ⟨[⟨1, "foo.exe", "C:\\apps\\foo.exe", "Fo", 0⟩], [⟨1, 100⟩]⟩ =
      .next ⟨[⟨1, "foo.exe", "C:\\apps\\foo.exe", "Fo", 0⟩], [⟨1, 100⟩]⟩ :=
  ⟨(watchTick_known { fooOS with now := 101 } fooStore "C:\\apps\\foo.exe" 1 1
      (by decide) (by decide) (by rfl)).2 (by decide) (by decide),
   (watchTick_known fooOS ⟨[⟨1, "foo.exe", "C:\\apps\\foo.exe", "Fo", 0⟩], [⟨1, 100⟩]⟩
      "C:\\apps\\foo.exe" 1 0 (by decide) (by decide) (by rfl)).1 rfl⟩

/-- C1, counterexample: the path is found with id 1 and track flag 1, but a
sample with the time of the iteration is already stored; the insert is rejected
by the primary key of `data`, no sample is appended and the iteration ends in
`log.Fatal`. -/
theorem known_path_timestamp_collision :
    (getCurrentProcess fooOS.foreground).1 = "C:\\apps\\foo.exe" ∧
    SearchInProcInfo fooStore "C:\\apps\\foo.exe" = .ok (1, 1) ∧
    watchTick fooOS fooStore = .fatal fooStore ∧
    ¬ ∃ s1, watchTick fooOS fooStore = .next s1 ∧
        s1.data = fooStore.data ++ [⟨1, fooOS.now⟩] := by
  refine ⟨by decide, by rfl, by decide, ?_⟩
  rintro ⟨s1, h, _⟩
  have hf : watchTick fooOS fooStore = .fatal fooStore := by decide
  rw [hf] at h
  cases h

/-- C2: when the observed non-empty path has no row in table `process` and
`getProcessInfo` succeeds, an iteration of `Watch` appends exactly one row to
`process`, with an id that no stored row has, the resolved name, the observed
path, the resolved description and track 1, and leaves table `data` unchanged. -/
theorem watchTick_unknown (os : OS) (s : Store) (p name desc filePath : String)
    (hobs : (getCurrentProcess os.foreground).1 = p) (hp : p ≠ "")
    (hnew : ∀ r ∈ s.process, r.path ≠ p)
    (hres : getProcessInfo (os.process (getCurrentProcess os.foreground).2.1) os.version
      = .ret (name, desc, filePath, none)) :
    ∃ id, (∀ r ∈ s.process, r.id ≠ id) ∧
      watchTick os s = .next ⟨s.process ++ [⟨id, name, p, desc, 1⟩], s.data⟩ := by
  subst hobs
  have hname := getProcessInfo_name _ _ _ _ _ hres
  refine ⟨nextRowid s.process, fun r hr => Nat.ne_of_lt (nextRowid_gt s.process r hr), ?_⟩
  rw [watchTick_of_path os s hp, SearchInProcInfo_none s _ hnew, hres]
  simp [hname, InsertProcessData, procInfoStmt, watchSample]

/-- Witness of `watchTick_unknown`: first sighting of `foo.exe` in the empty store. -/
theorem watchTick_unknown_witness :
    ∃ id, (∀ r ∈ emptyStore.process, r.id ≠ id) ∧
      watchTick fooOS emptyStore =
        .next ⟨emptyStore.process ++ [⟨id, "foo.exe", "C:\\apps\\foo.exe", "Fo", 1⟩],
          emptyStore.data⟩ :=
  watchTick_unknown fooOS emptyStore "C:\\apps\\foo.exe" "foo.exe" "Fo" "C:\\apps\\foo.exe"
    (by decide) (by decide) (by decide) (by decide)

/-- C3, evaluation: `C:\apps\foo.exe` is known with track flag 1;
`UpdateExclusion(0, path)` returns without error and leaves the store as it was,
the lookup still reports track 1, and the next iteration observing the path
appends a sample. -/
theorem UpdateExclusion_zero_keeps_tracking :
    SearchInProcInfo fooStore "C:\\apps\\foo.exe" = .ok (1, 1) ∧
    UpdateExclusion fooStore 0 "C:\\apps\\foo.exe" = .ok fooStore ∧
    GetTrackStatusByPath fooStore "C:\\apps\\foo.exe" = (1, none) ∧
    GetExclusions fooStore = [] ∧
    watchTick { fooOS with now := 101 } fooStore =
      .next ⟨fooStore.process, [⟨1, 100⟩, ⟨1, 101⟩]⟩ := by
  refine ⟨by rfl, by rfl, by decide, by decide, by decide⟩

/-- C4, evaluation: on the empty store `AddExclusion("foo.exe", "Fo",
"C:/apps/foo.exe")` stores the description in column `path` and the path in
column `desc`; the path is then not found by either lookup and `GetExclusions`
lists the description. -/
theorem AddExclusion_swaps_path_and_desc :
    AddExclusion emptyStore "foo.exe" "Fo" "C:/apps/foo.exe" =
      .ok ⟨[{ id := 1, name := "foo.exe", path := "Fo", desc := "C:/apps/foo.exe",
              track := 0 }], []⟩ ∧
    GetTrackStatusByPath ⟨[⟨1, "foo.exe", "Fo", "C:/apps/foo.exe", 0⟩], []⟩ "C:/apps/foo.exe"
      = (0, some .ErrNoRows) ∧
    SearchInProcInfo ⟨[⟨1, "foo.exe", "Fo", "C:/apps/foo.exe", 0⟩], []⟩ "C:/apps/foo.exe"
      = .error .ErrNoRows ∧
    GetExclusions ⟨[⟨1, "foo.exe", "Fo", "C:/apps/foo.exe", 0⟩], []⟩ = ["Fo"] := by
  refine ⟨by rfl, by decide, by rfl, by decide⟩

/-- C6, as amended: when the observed non-empty path has no row, the base name
resolves and `GetDescriptionFromPath` returns an error, the iteration of `Watch`
leaves the store unchanged (no row is created) and the loop goes on with the
next iteration. -/
theorem watchTick_description_error (os : OS) (s : Store) (p filePath fileName d e : String)
    (hobs : (getCurrentProcess os.foreground).1 = p) (hp : p ≠ "")
    (hnew : ∀ r ∈ s.process, r.path ≠ p)
    (hname : getFilePathAndNameFromProcessID
      (os.process (getCurrentProcess os.foreground).2.1) = (filePath, fileName, none))
    (hdesc : GetDescriptionFromPath (os.version filePath) = .ret (d, some e)) :
    watchTick os s = .next s ∧ ∀ rest, Watch s (os :: rest) = Watch s rest := by
  subst hobs
  have hinfo : getProcessInfo (os.process (getCurrentProcess os.foreground).2.1) os.version
      = .ret ("", "", "", some e) := by
    simp [getProcessInfo, hname, hdesc]
  have ht : watchTick os s = .next s := by
    rw [watchTick_of_path os s hp, SearchInProcInfo_none s _ hnew, hinfo]
    simp
  refine ⟨ht, ?_⟩
  intro rest
  simp [Watch, ht]

/-- Witness of `watchTick_description_error`: first sighting of `foo.exe` whose
translation table has 3 bytes. -/
theorem watchTick_description_error_witness :
    watchTick oddOS emptyStore = .next emptyStore ∧
    ∀ rest, Watch emptyStore (oddOS :: rest) = Watch emptyStore rest :=
  watchTick_description_error oddOS emptyStore "C:\\apps\\foo.exe" "C:\\apps\\foo.exe"
    "foo.exe" ""
    "error in verQueryValueTranslations: verQueryValueTranslations: incorrect number of bytes"
    (by decide) (by decide) (by decide) (by decide) (by decide)

/-- C6, counterexample: `foo.exe` is observed with the empty store, its base
name resolves, `GetDescriptionFromPath` returns the error of a translation
table of 3 bytes; the iteration creates no row for the path. -/
theorem description_error_creates_no_row :
    (getCurrentProcess oddOS.foreground).1 = "C:\\apps\\foo.exe" ∧
    getFilePathAndNameFromProcessID (oddOS.process 77) =
      ("C:\\apps\\foo.exe", "foo.exe", none) ∧
    GetDescriptionFromPath (oddOS.version "C:\\apps\\foo.exe") = .ret ("", some
      "error in verQueryValueTranslations: verQueryValueTranslations: incorrect number of bytes") ∧
    watchTick oddOS emptyStore = .next emptyStore ∧
    ¬ ∃ s1 r, watchTick oddOS emptyStore = .next s1 ∧ r ∈ s1.process ∧
        r.path = "C:\\apps\\foo.exe" ∧ r.desc = "" ∧ r.track = 1 := by
  refine ⟨by decide, by decide, by decide, by decide, ?_⟩
  rintro ⟨s1, r, h, hr, _⟩
  have hf : watchTick oddOS emptyStore = .next emptyStore := by decide
  rw [hf] at h
  cases h
  simp [emptyStore] at hr

/-- C7: an iteration of `Watch` in which `getCurrentProcess` returns the empty
path (no foreground window) or returns an error leaves the store unchanged and
the loop goes on; over any list of such iterations the loop ends with the store
it started with. -/
theorem Watch_skips (s : Store) (oss : List OS)
    (h : ∀ os ∈ oss, (getCurrentProcess os.foreground).1 = "" ∨
      (getCurrentProcess os.foreground).2.2 ≠ none) :
    (∀ os ∈ oss, watchTick os s = .next s) ∧ Watch s oss = .next s := by
  have hone : ∀ os ∈ oss, watchTick os s = .next s := by
    intro os hos
    have hpath : (getCurrentProcess os.foreground).1 = "" := by
      rcases h os hos with h1 | h2
      · exact h1
      · exact getCurrentProcess_path_of_err _ h2
    unfold watchTick
    rcases hg : getCurrentProcess os.foreground with ⟨path, pid, err⟩
    rw [hg] at hpath
    simp only at hpath
    simp [hpath]
  refine ⟨hone, ?_⟩
  induction oss with
  | nil => rfl
  | cons os rest ih =>
    have h1 := hone os (List.mem_cons_self _ _)
    simp only [Watch, h1]
    exact ih (fun o ho => h o (List.mem_cons_of_mem _ ho))
      (fun o ho => hone o (List.mem_cons_of_mem _ ho))

/-- Witness of `Watch_skips`: an iteration with no foreground window and one
whose process cannot be opened, on a store with a row and a sample. -/
theorem Watch_skips_witness :
    (∀ os ∈ [noWindowOS, deniedOS], watchTick os fooStore = .next fooStore) ∧
    Watch fooStore [noWindowOS, deniedOS] = .next fooStore :=
  Watch_skips fooStore [noWindowOS, deniedOS] (by decide)

/-! ## Lemmas on the store -/

theorem paths_nodup_append (rows : List ProcessRow) (row : ProcessRow)
    (hs : (rows.map (·.path)).Nodup) (h : ∀ r ∈ rows, r.path ≠ row.path) :
    ((rows ++ [row]).map (·.path)).Nodup := by
  rw [List.map_append, List.nodup_append]
  refine ⟨hs, by simp, ?_⟩
  intro a ha hb
  simp only [List.map_cons, List.map_nil, List.mem_singleton] at hb
  rcases List.mem_map.mp ha with ⟨r, hr, hra⟩
  exact h r hr (by rw [hra, hb])

theorem updateExclusion_paths (s : Store) (a1 : Nat) (a2 : String) :
    (updateExclusion s a1 a2).process.map (·.path) = s.process.map (·.path) := by
  simp only [updateExclusion, List.map_map]
  apply List.map_congr_left
  intro r _
  simp only [Function.comp]
  split <;> rfl

theorem run_paths_nodup (s : Store) (op : StoreOp)
    (hs : (s.process.map (·.path)).Nodup) (hg : op.guarded s = true) :
    ((op.run s).process.map (·.path)).Nodup := by
  cases op with
  | insertProcessData filename path desc track =>
    simp only [StoreOp.guarded, List.all_eq_true, decide_eq_true_eq] at hg
    exact paths_nodup_append _ _ hs hg
  | addExclusion processName desc path =>
    simp only [StoreOp.guarded, List.all_eq_true, decide_eq_true_eq] at hg
    exact paths_nodup_append _ _ hs (fun r hr => (hg r hr).2)
  | updateExclusion track path =>
    simp only [StoreOp.run, UpdateExclusion]
    rw [updateExclusion_paths]
    exact hs
  | insertProcessTime id now =>
    simp only [StoreOp.run, InsertProcessTime, procDataStmt]
    split
    · rename_i s1 h1
      split at h1
      · cases h1
      · cases h1
        exact hs
    · exact hs
  | deleteProcessByPath path =>
    simpa [StoreOp.run, DeleteProcessByPath, deleteProcessByPath] using hs
  | deleteDB =>
    simp [StoreOp.run, DeleteDB]

theorem SearchInProcInfo_error (s : Store) (p : String) (e : SqlError)
    (h : SearchInProcInfo s p = .error e) : ∀ r ∈ s.process, r.path ≠ p := by
  unfold SearchInProcInfo searchInProcInfo at h
  cases hf : s.process.find? (fun r => decide (r.path = p)) with
  | some r => simp [hf] at h
  | none =>
    rw [List.find?_eq_none] at hf
    intro r hr
    simpa using hf r hr

theorem SearchInProcInfo_found (s : Store) (p : String) (i t : Nat)
    (h : SearchInProcInfo s p = .ok (i, t)) : ∃ r ∈ s.process, r.path = p := by
  unfold SearchInProcInfo searchInProcInfo at h
  cases hf : s.process.find? (fun r => decide (r.path = p)) with
  | none => simp [hf] at h
  | some r =>
    exact ⟨r, List.mem_of_find?_eq_some hf, by simpa using List.find?_some hf⟩

theorem watchSample_process (s : Store) (id track now : Nat) :
    (watchSample s id track now).store.process = s.process := by
  unfold watchSample InsertProcessTime procDataStmt
  split
  · rfl
  · split
    · rename_i h
      split at h <;> cases h
      rfl
    · rename_i s1 h
      split at h
      · cases h
      · cases h
        rfl

theorem watchTick_empty_path (os : OS) (s : Store)
    (h : (getCurrentProcess os.foreground).1 = "") : watchTick os s = .next s := by
  unfold watchTick
  rcases hg : getCurrentProcess os.foreground with ⟨path, pid, err⟩
  rw [hg] at h
  simp only at h
  simp [h]

theorem watchTick_paths_nodup (os : OS) (s : Store)
    (hs : (s.process.map (·.path)).Nodup) :
    ((watchTick os s).store.process.map (·.path)).Nodup := by
  by_cases hp : (getCurrentProcess os.foreground).1 = ""
  · rw [watchTick_empty_path os s hp]
    exact hs
  · rw [watchTick_of_path os s hp]
    cases hfind : SearchInProcInfo s (getCurrentProcess os.foreground).1 with
    | ok r =>
      obtain ⟨id, track⟩ := r
      simp only []
      rw [watchSample_process]
      exact hs
    | error e =>
      have hnew := SearchInProcInfo_error s _ e hfind
      simp only []
      split
      · split
        · exact hs
        · split
          · exact hs
          · split
            · exact hs
            · simp only [InsertProcessData]
              rw [watchSample_process]
              exact paths_nodup_append _ _ hs hnew
      · exact hs

theorem runEvents_paths_nodup (evs : List Event) :
    ∀ s : Store, (s.process.map (·.path)).Nodup → eventsGuarded s evs = true →
      ((runEvents s evs).process.map (·.path)).Nodup := by
  induction evs with
  | nil =>
    intro s hs _
    simpa [runEvents] using hs
  | cons ev rest ih =>
    intro s hs hg
    simp only [eventsGuarded, Bool.and_eq_true] at hg
    have hstep : ((ev.run s).process.map (·.path)).Nodup := by
      cases ev with
      | tick os => exact watchTick_paths_nodup os s hs
      | call op => exact run_paths_nodup s op hs hg.1
    have := ih (ev.run s) hstep hg.2
    simpa [runEvents] using this

theorem InsertProcessData_known_path (s : Store) (p filename desc : String) (i t : Nat)
    (track : Bool) (h : SearchInProcInfo s p = .ok (i, t)) :
    ∃ id, (∀ r ∈ s.process, r.id ≠ id) ∧
      InsertProcessData s filename p desc track =
        .ok ⟨s.process ++ [⟨id, filename, p, desc, 1⟩], s.data⟩ ∧
      SearchInProcInfo ⟨s.process ++ [⟨id, filename, p, desc, 1⟩], s.data⟩ p = .ok (i, t) ∧
      ¬ ((s.process ++ [ProcessRow.mk id filename p desc 1]).map (·.path)).Nodup := by
  refine ⟨nextRowid s.process, fun r hr => Nat.ne_of_lt (nextRowid_gt s.process r hr),
    rfl, ?_, ?_⟩
  · unfold SearchInProcInfo searchInProcInfo at h ⊢
    cases hf : s.process.find? (fun r => decide (r.path = p)) with
    | none => simp [hf] at h
    | some r =>
      simp only [hf, Option.map_some'] at h
      simp only [List.find?_append, hf, Option.or_some, Option.map_some']
      exact h
  · obtain ⟨r, hr, hrp⟩ := SearchInProcInfo_found s p i t h
    rw [List.map_append, List.nodup_append]
    intro hnd
    exact hnd.2.2 (List.mem_map.mpr ⟨r, hr, hrp⟩) (by simp)

/-- C5, as amended: table `process` has no uniqueness constraint on `path`.
Starting from the empty store, after any sequence of iterations of `Watch` and of
calls of the store's operations in which every `InsertProcessData` is made for a
path that has no row (and every `AddExclusion` with a path and a description that
are not the path of a row), no two rows share a path; an iteration of `Watch`
needs no condition, its own lookup comes before its insert.  On any store, an
`InsertProcessData` for a path that the lookup finds appends a second row with
that path and an id no stored row has, so two rows then share the path, and the
lookup by path keeps returning the same id and track flag. -/
theorem runEvents_path_unique (evs : List Event) :
    (eventsGuarded emptyStore evs = true →
      ((runEvents emptyStore evs).process.map (·.path)).Nodup) ∧
    ∀ (s : Store) (p filename desc : String) (i t : Nat) (track : Bool),
      SearchInProcInfo s p = .ok (i, t) →
      ∃ id, (∀ r ∈ s.process, r.id ≠ id) ∧
        InsertProcessData s filename p desc track =
          .ok ⟨s.process ++ [⟨id, filename, p, desc, 1⟩], s.data⟩ ∧
        SearchInProcInfo ⟨s.process ++ [⟨id, filename, p, desc, 1⟩], s.data⟩ p
          = .ok (i, t) ∧
        ¬ ((s.process ++ [ProcessRow.mk id filename p desc 1]).map (·.path)).Nodup := by
  refine ⟨runEvents_paths_nodup evs emptyStore (by simp [emptyStore]), ?_⟩
  intro s p filename desc i t track h
  exact InsertProcessData_known_path s p filename desc i t track h

set_option maxRecDepth 8000 in
/-- Witness of `runEvents_path_unique`: a first sighting and a sample by `Watch`,
an exclusion toggle, an insert and an added exclusion for new paths, a sample, a
deletion of samples; then a second insert for the path of `fooStore`. -/
theorem runEvents_path_unique_witness :
    ((runEvents emptyStore
        [.tick fooOS,
         .tick { fooOS with now := 101 },
         .call (.updateExclusion 0 "C:\\apps\\foo.exe"),
         .call (.insertProcessData "bar.exe" "C:\\apps\\bar.exe" "Bar" true),
         .call (.addExclusion "baz.exe" "Baz" "C:/apps/baz.exe"),
         .call (.insertProcessTime 2 102),
         .call (.deleteProcessByPath "C:\\apps\\bar.exe")]).process.map (·.path)).Nodup ∧
    ∃ id, (∀ r ∈ fooStore.process, r.id ≠ id) ∧
      InsertProcessData fooStore "foo.exe" "C:\\apps\\foo.exe" "Fo" true =
        .ok ⟨fooStore.process ++ [⟨id, "foo.exe", "C:\\apps\\foo.exe", "Fo", 1⟩],
          fooStore.data⟩ ∧
      SearchInProcInfo
        ⟨fooStore.process ++ [⟨id, "foo.exe", "C:\\apps\\foo.exe", "Fo", 1⟩], fooStore.data⟩
        "C:\\apps\\foo.exe" = .ok (1, 1) ∧
      ¬ ((fooStore.process ++
        [ProcessRow.mk id "foo.exe" "C:\\apps\\foo.exe" "Fo" 1]).map (·.path)).Nodup :=
  ⟨(runEvents_path_unique _).1 (by decide),
   (runEvents_path_unique []).2 fooStore "C:\\apps\\foo.exe" "foo.exe" "Fo" 1 1 true
     (by rfl)⟩

/-- C5, counterexample: from the empty store, two calls of `InsertProcessData`
for the same path leave two rows with that path, with ids 1 and 2. -/
theorem second_insert_duplicates_path :
    runOps emptyStore
      [.insertProcessData "foo.exe" "C:\\apps\\foo.exe" "Fo" true,
       .insertProcessData "foo.exe" "C:\\apps\\foo.exe" "Fo" true] =
      ⟨[⟨1, "foo.exe", "C:\\apps\\foo.exe", "Fo", 1⟩,
        ⟨2, "foo.exe", "C:\\apps\\foo.exe", "Fo", 1⟩], []⟩ ∧
    ¬ ((runOps emptyStore
      [.insertProcessData "foo.exe" "C:\\apps\\foo.exe" "Fo" true,
       .insertProcessData "foo.exe" "C:\\apps\\foo.exe" "Fo" true]).process.map
        (·.path)).Nodup := by
  refine ⟨by decide, by decide⟩

/-- C8, evaluation: on a block of 8 bytes, a value reported at offset 4 with
length 2^31 passes the range check of `verQueryValueString` (`2*utf16Length`
wraps to 0, so `end = start = 4`), and the first iteration of the loop reads
`data[1]` of the empty `data`: the call neither returns an error nor stays in
range, it panics, and so does `GetDescriptionFromPath`. -/
theorem verQueryValueString_wrapped_length :
    wrapU32 (2 * wrapU32 2147483648) = 0 ∧
    sliceAt [0x04, 0x09, 0x04, 0xb0, 0x46, 0, 0x6f, 0] 4 4 = some [] ∧
    indexAt [] (0 * 2 + 1) = none ∧
    verQueryValueString hugeLengthVersion [0x04, 0x09, 0x04, 0xb0, 0x46, 0, 0x6f, 0]
      "040904b0" "FileDescription" = .crash "index out of range" ∧
    GetDescriptionFromPath hugeLengthVersion = .crash "index out of range" := by
  refine ⟨by decide, by decide, by decide, by decide, by decide⟩

/-- C10, evaluation: for a translation table reported with length 0
`verQueryValueTranslations` returns the empty list and no error, and
`GetDescriptionFromPath` panics at `languages[0]`. -/
theorem GetDescriptionFromPath_empty_translations :
    verQueryValueTranslations noTranslationVersion [0x09, 0x04, 0xb0, 0x04, 0x46, 0, 0x6f, 0]
      = .ret ([0x09, 0x04, 0xb0, 0x04, 0x46, 0, 0x6f, 0], [], none) ∧
    GetDescriptionFromPath noTranslationVersion
      = .crash "index out of range [0] with length 0" := by
  refine ⟨by decide, by decide⟩

/-! ## Lemmas on the version resource -/

theorem sprintfHex_entry (b0 b1 b2 b3 : Byte) :
    sprintfHex [b1, b0, b3, b2] = translationKey b0 b1 b2 b3 := by
  simp [sprintfHex, translationKey, List.flatMap, hexByte]

theorem translationStep_eq (pre post : List Byte) (b0 b1 b2 b3 : Byte) (i : Nat)
    (hpre : pre.length = i * 4) :
    translationStep (pre ++ b0 :: b1 :: b2 :: b3 :: post) i =
      some (pre ++ [b1, b0, b3, b2] ++ post, translationKey b0 b1 b2 b3) := by
  have hlen : (pre ++ b0 :: b1 :: b2 :: b3 :: post).length = i * 4 + 4 + post.length := by
    simp [hpre]; omega
  have hcond : (0 : Int) ≤ ((i * 4 : Nat) : Int) ∧ ((i * 4 : Nat) : Int) ≤ (((i + 1) * 4 : Nat) : Int) ∧
      (((i + 1) * 4 : Nat) : Int) ≤ ((pre ++ b0 :: b1 :: b2 :: b3 :: post).length : Int) := by
    rw [hlen]; omega
  have hdrop : (pre ++ b0 :: b1 :: b2 :: b3 :: post).drop (i * 4) = b0 :: b1 :: b2 :: b3 :: post :=
    List.drop_left' hpre
  have hdrop2 : (pre ++ b0 :: b1 :: b2 :: b3 :: post).drop ((i + 1) * 4) = post := by
    have : (i + 1) * 4 = i * 4 + 4 := by omega
    rw [this, ← List.drop_drop, hdrop]
    rfl
  have htake : (pre ++ b0 :: b1 :: b2 :: b3 :: post).take (i * 4) = pre :=
    List.take_left' hpre
  have hsub : (i + 1) * 4 - i * 4 = 4 := by omega
  unfold translationStep sliceAt
  rw [if_pos hcond]
  simp only [Int.toNat_ofNat, hdrop, hsub, hdrop2, htake]
  simp [indexAt, sprintfHex_entry]

theorem translationLoop_eq (n : Nat) :
    ∀ (pre body post : List Byte) (i : Nat) (keys : List String),
      pre.length = i * 4 → body.length = n * 4 →
      translationLoop (pre ++ body ++ post) i n keys =
        some (pre ++ swapEntries body ++ post, keys ++ keysOf body) := by
  induction n with
  | zero =>
    intro pre body post i keys _ hbody
    have : body = [] := List.length_eq_zero.mp (by simpa using hbody)
    subst this
    simp [translationLoop, swapEntries, keysOf]
  | succ n ih =>
    intro pre body post i keys hpre hbody
    match body, hbody with
    | b0 :: b1 :: b2 :: b3 :: rest, hbody =>
      have hrest : rest.length = n * 4 := by simp at hbody; omega
      have h1 : pre ++ (b0 :: b1 :: b2 :: b3 :: rest) ++ post =
          pre ++ b0 :: b1 :: b2 :: b3 :: (rest ++ post) := by simp
      rw [h1]
      unfold translationLoop
      rw [translationStep_eq pre (rest ++ post) b0 b1 b2 b3 i hpre]
      have h2 : pre ++ [b1, b0, b3, b2] ++ (rest ++ post) = (pre ++ [b1, b0, b3, b2]) ++ rest ++ post := by
        simp
      simp only []
      rw [h2, ih (pre ++ [b1, b0, b3, b2]) rest post (i + 1) _ (by simp [hpre]; omega) hrest]
      simp [swapEntries, keysOf]
    | [], hbody => simp at hbody
    | [_], hbody => simp at hbody; omega
    | [_, _], hbody => simp at hbody; omega
    | [_, _, _], hbody => simp at hbody; omega

theorem keysOf_eq_translationKeys : ∀ data : List Byte, keysOf data = translationKeys data := by
  intro data
  induction data using keysOf.induct with
  | case1 b0 b1 b2 b3 rest ih =>
    have hlen : (b0 :: b1 :: b2 :: b3 :: rest).length / 4 = rest.length / 4 + 1 := by
      simp only [List.length_cons]; omega
    rw [keysOf, ih]
    unfold translationKeys
    rw [hlen, List.range_succ_eq_map, List.map_cons, List.map_map]
    congr 1
  | case2 data hne =>
    have hlen : data.length / 4 = 0 := by
      rcases data with _ | ⟨b0, _ | ⟨b1, _ | ⟨b2, _ | ⟨b3, rest⟩⟩⟩⟩
      · rfl
      · simp
      · simp
      · simp
      · exact absurd rfl (hne b0 b1 b2 b3 rest)
    rw [keysOf]
    · simp [translationKeys, hlen]
    · exact hne

theorem translationKey_length (b0 b1 b2 b3 : Byte) : (translationKey b0 b1 b2 b3).length = 8 := by
  simp [translationKey, hexByte, String.length]

theorem hexDigit_mem : ∀ n, n < 16 → hexDigit n ∈ "0123456789abcdef".toList := by
  decide

theorem hexValue_hexDigit : ∀ n, n < 16 → hexValue (hexDigit n) = n := by
  decide

theorem hexByte_value (b : Byte) : (hexByte b).map hexValue = [b.val / 16, b.val % 16] := by
  simp only [hexByte, List.map_cons, List.map_nil]
  rw [hexValue_hexDigit _ (by omega), hexValue_hexDigit _ (by omega)]

theorem translationKey_chars (b0 b1 b2 b3 : Byte) :
    ∀ c ∈ (translationKey b0 b1 b2 b3).toList, c ∈ "0123456789abcdef".toList := by
  have h : ∀ b : Byte, ∀ c ∈ hexByte b, c ∈ "0123456789abcdef".toList := by
    intro b c hc
    simp only [hexByte, List.mem_cons, List.mem_singleton, List.not_mem_nil, or_false] at hc
    rcases hc with rfl | rfl
    · exact hexDigit_mem _ (by omega)
    · exact hexDigit_mem _ (by omega)
  intro c hc
  simp only [translationKey, String.toList, List.mem_append] at hc
  rcases hc with ((hc | hc) | hc) | hc <;> exact h _ c hc

theorem sliceAt_ofNat (xs : List Byte) (a b : Nat) (h : a ≤ b) (hb : b ≤ xs.length) :
    sliceAt xs (a : Int) (b : Int) = some ((xs.drop a).take (b - a)) := by
  have hc : (0 : Int) ≤ (a : Int) ∧ (a : Int) ≤ (b : Int) ∧ (b : Int) ≤ (xs.length : Int) := by
    omega
  simp [sliceAt, hc]

theorem region_length (xs : List Byte) (a b : Nat) (hb : b ≤ xs.length) :
    ((xs.drop a).take (b - a)).length = b - a := by
  simp; omega

theorem translationLoop_region (data : List Byte) (h : data.length % 4 = 0) :
    translationLoop data 0 (data.length / 4) [] = some (swapEntries data, translationKeys data) := by
  have := translationLoop_eq (data.length / 4) [] data [] 0 [] rfl (by omega)
  simpa [keysOf_eq_translationKeys] using this

theorem wrapInt_range (x : Int) : -2 ^ 63 ≤ wrapInt x ∧ wrapInt x < 2 ^ 63 := by
  unfold wrapInt
  omega

theorem wrapInt_add_small (s : Int) (x : Nat) (hs0 : 0 ≤ s) (hs : s < 2 ^ 63)
    (hx : x < 2 ^ 32) (h : ¬ wrapInt (s + wrapInt (x : Int)) < s) :
    wrapInt (s + wrapInt (x : Int)) = s + (x : Int) := by
  unfold wrapInt at h ⊢
  omega

theorem verQueryValueTranslations_region (v : VersionOS) (block : List Byte)
    (offset length start stop : Nat)
    (hq : v.VerQueryValue block "\\VarFileInfo\\Translation" = .ok (offset, length))
    (hstart : wrapInt (wrapInt offset - wrapInt v.blockStart) = start)
    (hstop : wrapInt ((start : Int) + wrapInt (wrapU32 length)) = stop)
    (h1 : start < block.length) (h2 : start ≤ stop) (h3 : stop ≤ block.length) :
    verQueryValueTranslations v block =
      if ((block.drop start).take (stop - start)).length % 4 ≠ 0 then
        .ret (block, [], some "verQueryValueTranslations: incorrect number of bytes")
      else
        .ret (block.take start ++ swapEntries ((block.drop start).take (stop - start)) ++
          block.drop stop, translationKeys ((block.drop start).take (stop - start)), none) := by
  obtain ⟨b, bs, rfl⟩ : ∃ b bs, block = b :: bs := by
    cases block with
    | nil => simp at h1
    | cons b bs => exact ⟨b, bs, rfl⟩
  have hc : ¬ ((start : Int) < 0 ∨ (start : Int) ≥ ((b :: bs).length : Int) ∨
      (stop : Int) < (start : Int) ∨ (stop : Int) > ((b :: bs).length : Int)) := by
    omega
  simp only [verQueryValueTranslations, hq, hstart, hstop, if_neg hc,
    sliceAt_ofNat _ _ _ h2 h3, Int.toNat_ofNat]
  split
  · rfl
  · rename_i heven
    rw [translationLoop_region _ (by simpa using heven)]

theorem verQueryValueTranslations_returns (v : VersionOS) (block : List Byte)
    (hne : block ≠ []) : ∃ r, verQueryValueTranslations v block = .ret r := by
  cases hq : v.VerQueryValue block "\\VarFileInfo\\Translation" with
  | error e =>
    cases block with
    | nil => exact absurd rfl hne
    | cons b bs =>
      simp only [verQueryValueTranslations, hq]
      exact ⟨_, rfl⟩
  | ok r =>
    obtain ⟨offset, length⟩ := r
    by_cases hc : wrapInt (wrapInt offset - wrapInt v.blockStart) < 0 ∨
        wrapInt (wrapInt offset - wrapInt v.blockStart) ≥ (block.length : Int) ∨
        wrapInt (wrapInt (wrapInt offset - wrapInt v.blockStart) + wrapInt (wrapU32 length))
          < wrapInt (wrapInt offset - wrapInt v.blockStart) ∨
        wrapInt (wrapInt (wrapInt offset - wrapInt v.blockStart) + wrapInt (wrapU32 length))
          > (block.length : Int)
    · cases block with
      | nil => exact absurd rfl hne
      | cons b bs =>
        simp only [verQueryValueTranslations, hq, if_pos hc]
        exact ⟨_, rfl⟩
    · obtain ⟨start, hstart⟩ : ∃ start : Nat,
          wrapInt (wrapInt offset - wrapInt v.blockStart) = start :=
        ⟨_, (Int.toNat_of_nonneg (by omega)).symm⟩
      rw [hstart] at hc
      obtain ⟨stop, hstop⟩ : ∃ stop : Nat,
          wrapInt ((start : Int) + wrapInt (wrapU32 length)) = stop :=
        ⟨_, (Int.toNat_of_nonneg (by omega)).symm⟩
      rw [hstop] at hc
      rw [verQueryValueTranslations_region v block offset length start stop hq hstart hstop
        (by omega) (by omega) (by omega)]
      split <;> exact ⟨_, rfl⟩

theorem u16Loop_some (data : List Byte) :
    ∀ (n i : Nat) (u16 : List Nat), (i + n) * 2 ≤ data.length →
      ∃ u, u16Loop data i n u16 = some u := by
  intro n
  induction n with
  | zero => intro i u16 _; exact ⟨u16, rfl⟩
  | succ n ih =>
    intro i u16 h
    have h1 : i * 2 + 1 < data.length := by omega
    have h0 : i * 2 + 0 < data.length := by omega
    unfold u16Loop
    simp only [indexAt, List.get?_eq_getElem?, List.getElem?_eq_getElem h1,
      List.getElem?_eq_getElem h0]
    exact ih (i + 1) _ (by omega)

theorem verQueryValueString_returns (v : VersionOS) (block : List Byte)
    (translation item : String) (hne : block ≠ [])
    (hlen : ∀ offset utf16Length,
      v.VerQueryValue block ("\\StringFileInfo\\" ++ translation ++ "\\" ++ item)
        = .ok (offset, utf16Length) → wrapU32 utf16Length < 2 ^ 31) :
    ∃ r, verQueryValueString v block translation item = .ret r := by
  cases hq : v.VerQueryValue block ("\\StringFileInfo\\" ++ translation ++ "\\" ++ item) with
  | error e =>
    cases block with
    | nil => exact absurd rfl hne
    | cons b bs =>
      simp only [verQueryValueString, hq]
      exact ⟨_, rfl⟩
  | ok r =>
    obtain ⟨offset, utf16Length⟩ := r
    have hsmall := hlen offset utf16Length hq
    by_cases hc : wrapInt (wrapInt offset - wrapInt v.blockStart) < 0 ∨
        wrapInt (wrapInt offset - wrapInt v.blockStart) ≥ (block.length : Int) ∨
        wrapInt (wrapInt (wrapInt offset - wrapInt v.blockStart) +
          wrapInt (wrapU32 (2 * wrapU32 utf16Length)))
          < wrapInt (wrapInt offset - wrapInt v.blockStart) ∨
        wrapInt (wrapInt (wrapInt offset - wrapInt v.blockStart) +
          wrapInt (wrapU32 (2 * wrapU32 utf16Length)))
          > (block.length : Int)
    · cases block with
      | nil => exact absurd rfl hne
      | cons b bs =>
        simp only [verQueryValueString, hq, if_pos hc]
        exact ⟨_, rfl⟩
    · obtain ⟨start, hstart⟩ : ∃ start : Nat,
          wrapInt (wrapInt offset - wrapInt v.blockStart) = start :=
        ⟨_, (Int.toNat_of_nonneg (by omega)).symm⟩
      rw [hstart] at hc
      have hdouble : wrapU32 (2 * wrapU32 utf16Length) = 2 * wrapU32 utf16Length := by
        unfold wrapU32 at hsmall ⊢
        omega
      rw [hdouble] at hc
      have hstop : wrapInt ((start : Int) + wrapInt ((2 * wrapU32 utf16Length : Nat) : Int)) =
          ((start + 2 * wrapU32 utf16Length : Nat) : Int) := by
        have hs := (wrapInt_range (wrapInt offset - wrapInt v.blockStart)).2
        rw [hstart] at hs
        rw [wrapInt_add_small (start : Int) (2 * wrapU32 utf16Length) (by omega) hs
          (by omega) (by omega)]
        push_cast
        rfl
      rw [hstop] at hc
      have h3 : start + 2 * wrapU32 utf16Length ≤ block.length := by omega
      cases block with
      | nil => exact absurd rfl hne
      | cons b bs =>
        simp only [verQueryValueString, hq, hstart, hdouble, hstop, if_neg hc,
          sliceAt_ofNat _ _ _ (Nat.le_add_right _ _) h3, Int.toNat_ofNat]
        obtain ⟨u, hu⟩ := u16Loop_some
          (((b :: bs).drop start).take (start + 2 * wrapU32 utf16Length - start))
          (wrapU32 utf16Length) 0 [] (by rw [region_length _ _ _ h3]; omega)
        rw [hu]
        exact ⟨_, rfl⟩

/-- C9: when the version lookup succeeds and the translation region
`data = block[start:end]` is in range, `verQueryValueTranslations` returns the
error `incorrect number of bytes` if `len(data)` is not a multiple of 4, and
otherwise returns no error and the `len(data)/4` keys of `translationKeys data`:
in table order, for the entry with bytes `b0 b1 b2 b3` the 8 lowercase
hexadecimal digits of `b1 b0 b3 b2`. -/
theorem verQueryValueTranslations_keys (v : VersionOS) (block : List Byte)
    (offset length start stop : Nat)
    (hq : v.VerQueryValue block "\\VarFileInfo\\Translation" = .ok (offset, length))
    (hstart : wrapInt (wrapInt offset - wrapInt v.blockStart) = start)
    (hstop : wrapInt ((start : Int) + wrapInt (wrapU32 length)) = stop)
    (h1 : start < block.length) (h2 : start ≤ stop) (h3 : stop ≤ block.length) :
    (((block.drop start).take (stop - start)).length % 4 ≠ 0 →
      verQueryValueTranslations v block =
        .ret (block, [], some "verQueryValueTranslations: incorrect number of bytes")) ∧
    (((block.drop start).take (stop - start)).length % 4 = 0 →
      (∃ block1, verQueryValueTranslations v block =
        .ret (block1, translationKeys ((block.drop start).take (stop - start)), none)) ∧
      (translationKeys ((block.drop start).take (stop - start))).length =
        ((block.drop start).take (stop - start)).length / 4 ∧
      ∀ k ∈ translationKeys ((block.drop start).take (stop - start)),
        k.length = 8 ∧ ∀ c ∈ k.toList, c ∈ "0123456789abcdef".toList) := by
  have hbody := verQueryValueTranslations_region v block offset length start stop hq hstart
    hstop h1 h2 h3
  constructor
  · intro hodd
    rw [hbody, if_pos hodd]
  · intro heven
    refine ⟨?_, ?_, ?_⟩
    · rw [hbody, if_neg (by simpa using heven)]
      exact ⟨_, rfl⟩
    · simp [translationKeys]
    · intro k hk
      simp only [translationKeys, List.mem_map] at hk
      rcases hk with ⟨i, _, rfl⟩
      exact ⟨translationKey_length _ _ _ _, translationKey_chars _ _ _ _⟩

/-- Witness of `verQueryValueTranslations_keys`: the table `09 04 b0 04` gives the
key `040904b0`; a table reported with 3 bytes gives the error. -/
theorem verQueryValueTranslations_keys_witness :
    (∃ block1, verQueryValueTranslations fooVersion [0x09, 0x04, 0xb0, 0x04, 0x46, 0, 0x6f, 0]
      = .ret (block1, ["040904b0"], none)) ∧
    verQueryValueTranslations oddVersion [0x09, 0x04, 0xb0, 0x04, 0x46, 0, 0x6f, 0]
      = .ret ([0x09, 0x04, 0xb0, 0x04, 0x46, 0, 0x6f, 0], [],
          some "verQueryValueTranslations: incorrect number of bytes") :=
  ⟨((verQueryValueTranslations_keys fooVersion [0x09, 0x04, 0xb0, 0x04, 0x46, 0, 0x6f, 0]
      4096 4 0 4 (by rfl) (by decide) (by decide) (by decide) (by decide) (by decide)).2
      (by decide)).1,
   (verQueryValueTranslations_keys oddVersion [0x09, 0x04, 0xb0, 0x04, 0x46, 0, 0x6f, 0]
      4096 3 0 3 (by rfl) (by decide) (by decide) (by decide) (by decide) (by decide)).1
      (by decide)⟩

end WindowWatcher
